import Mathlib

/-!
Verification development for the pygame-ce documentation object indexer
(`docs/reST/ext/indexer.py`).

The Python module walks each parsed document tree with a docutils
`SparseNodeVisitor` subclass (`CollectInfo`), collects a summary line, a
signature list and a children list per recognized section/description node,
and stores the result in the persistent registry `env.pyg_descinfo_tbl`.
The traversal component (`tour_descinfo` / `tour_descinfo_refid`) flattens
an entry and its descendants, parent first, children in document order.

The shallow embedding below mirrors the source:
  * docutils trees become the inductive type `Node`; attribute access,
    `astext()` and the `walkabout` visiting protocol (including the
    `SkipNode` and `SkipDeparture` tree-pruning exceptions, whose semantics
    come from `docutils.nodes`: `SkipNode` prunes the node and its subtree
    with no departure call, while `SkipDeparture` still visits the children
    and only suppresses the departure call) are modelled explicitly;
  * the registry `env.pyg_descinfo_tbl` is an association list with Python
    dict semantics (first-match lookup, in-place overwrite, ordered);
  * Python exceptions (`GetError`, `TypeError`, `IndexError`, `KeyError`)
    become the error type `Err` of an `Except` computation;
  * the recursions of `walkabout` and `tour_descinfo_refid` take an
    explicit fuel argument (Python has a recursion limit; every
    terminating run is reproduced with enough fuel).
-/

namespace Indexer

/-- An entry of `env.pyg_descinfo_tbl` (`indexer.py` module docstring and
`CollectInfo._add_descinfo`). -/
structure Entry where
  fullname : String
  desctype : String
  summary : String
  signatures : List String
  children : List String
  refid : String
  docname : String
deriving DecidableEq, Repr

/-- Python exception kinds that the indexer code can raise.  `getError`
carries the message passed to the `GetError` constructor. -/
inductive Err where
  | getError (msg : String)
  | typeError
  | indexError
  | keyError
  | fuelOut
deriving DecidableEq, Repr

/-- docutils document-tree nodes, as the indexer distinguishes them:
sections (with `names` and `ids` attributes), Sphinx `desc` nodes (with a
`desctype` attribute), `desc_signature` children carrying the `ids` of a
description, inline nodes (with a `classes` attribute), text leaves and
any other element. -/
inductive Node where
  | sectionN (names : List String) (ids : List String) (children : List Node)
  | descN (desctype : Option String) (children : List Node)
  | descSig (ids : List String) (children : List Node)
  | inlineN (classes : List String) (children : List Node)
  | textN (s : String)
  | otherN (children : List Node)
deriving Repr

/-- `MODULE_ID_PREFIX = "module-"` (indexer.py line 39). -/
def MODULE_ID_PREFIX : String := "module-"

/-- Python `s.startswith(pre)`, modelled on the character sequence (the
observable behaviour of `String.startsWith`). -/
def strStartsWith (s pre : String) : Bool := pre.data.isPrefixOf s.data

/-- Python string slicing `s[n:]`, modelled on the character sequence. -/
def strDrop (s : String) (n : Nat) : String := String.mk (s.data.drop n)

/-- Key computation of `_add_descinfo_entry` / `get_descinfo_refid`:
strip the module-prefix marker when present
(`key[len(MODULE_ID_PREFIX):]`). -/
def stripModule (r : String) : String :=
  if strStartsWith r MODULE_ID_PREFIX then strDrop r MODULE_ID_PREFIX.length
  else r

/-- The registry `env.pyg_descinfo_tbl`: a Python dict, modelled as an
ordered association list with unique keys maintained by `dictInsert`. -/
abbrev Registry := List (String × Entry)

/-- Python dict lookup: first (unique) matching key. -/
def lookupTbl : Registry → String → Option Entry
  | [], _ => none
  | (k0, e) :: rest, k => if k0 = k then some e else lookupTbl rest k

/-- Python dict assignment `tbl[key] = entry`: overwrite in place, else
append (insertion order preserved). -/
def dictInsert : Registry → String → Entry → Registry
  | [], k, e => [(k, e)]
  | (k0, e0) :: rest, k, e =>
    if k0 = k then (k, e) :: rest else (k0, e0) :: dictInsert rest k e

/-- Python dict deletion `del tbl[k]`: the key is absent afterwards. -/
def dictDelete (tbl : Registry) (k : String) : Registry :=
  tbl.filter (fun kv => !(kv.1 == k))

/-- The `ids` attribute of a docutils element.  Every docutils `Element`
carries an `ids` attribute (default `[]`); `Text` leaves are plain strings
and subscripting them with `"ids"` raises a `TypeError`, which `none`
signals here. -/
def attrIds : Node → Option (List String)
  | .sectionN _ ids _ => some ids
  | .descSig ids _ => some ids
  | .descN _ _ => some []
  | .inlineN _ _ => some []
  | .otherN _ => some []
  | .textN _ => none

/-- `get_ids(node)` (indexer.py lines 289-304): a section's own `ids`; for
a `desc`, the `ids` of its first child (the signature); any other node
shape is a `TypeError`.  (The source's `except KeyError` branch for a
missing `ids` attribute is dead for docutils elements, which always carry
`ids`; a `Text` first child raises `TypeError`.) -/
def get_ids : Node → Except Err (List String)
  | .sectionN _ ids _ => .ok ids
  | .descN _ children =>
    match children with
    | [] => .error (.getError "No ids: missing desc children")
    | sig :: _ =>
      match attrIds sig with
      | none => .error .typeError
      | some ids => .ok ids
  | _ => .error .typeError

/-- `get_refid(node)` (indexer.py lines 282-286): first id, `GetError` on
an empty ids list. -/
def get_refid (n : Node) : Except Err String :=
  match get_ids n with
  | .error e => .error e
  | .ok [] => .error (.getError "Node has empty ids list")
  | .ok (r :: _) => .ok r

/-- `get_sectionname(section)` (indexer.py lines 267-275): first name.
(Sections always carry a `names` attribute, so the `except KeyError`
branch is dead.) -/
def get_sectionname (names : List String) : Except Err String :=
  match names with
  | [] => .error (.getError "No fullname: section has empty names list")
  | n :: _ => .ok n

/-- `get_descname(desc)` (indexer.py lines 252-264): first id of the
first child. -/
def get_descname (children : List Node) : Except Err String :=
  match children with
  | [] => .error (.getError "No fullname: missing children in desc")
  | sig :: _ =>
    match attrIds sig with
    | none => .error .typeError
    | some [] => .error (.getError "No fullname: desc's child has empty names list")
    | some (n :: _) => .ok n

/-- `get_fullname(node)` (indexer.py lines 244-249). -/
def get_fullname : Node → Except Err String
  | .sectionN names _ _ => get_sectionname names
  | .descN _ children => get_descname children
  | _ => .error .typeError

/-- `get_descinfo_refid(refid, env)` (indexer.py lines 235-241): strip the
module prefix, then a failed registry lookup is a (recoverable)
`GetError`. -/
def get_descinfo_refid (refid : String) (tbl : Registry) : Except Err Entry :=
  match lookupTbl tbl (stripModule refid) with
  | some e => .ok e
  | none => .error (.getError "Not found")

/-- `get_descinfo(node, env)` (indexer.py lines 231-232). -/
def get_descinfo (n : Node) (tbl : Registry) : Except Err Entry :=
  match get_refid n with
  | .error e => .error e
  | .ok r => get_descinfo_refid r tbl

/-- `[get_refid(n) for n in child_descs]` (indexer.py line 184): the
children list of a new entry; the first failing resolution raises. -/
def refidList : List Node → Except Err (List String)
  | [] => .ok []
  | n :: ns =>
    match get_refid n with
    | .error e => .error e
    | .ok r =>
      match refidList ns with
      | .error e => .error e
      | .ok rs => .ok (r :: rs)

/-- `node.get("desctype", "module")` (indexer.py line 181): sections carry
no `desctype` attribute, so they (and attribute-less descs) default to
`"module"`. -/
def nodeDesctype : Node → String
  | .descN dt _ => dt.getD "module"
  | _ => "module"

/-- The recognized desctype vocabulary `CollectInfo.desctypes`
(indexer.py lines 95-104).  Note that `"module"` is NOT a member. -/
def desctypes : List String :=
  ["data", "function", "exception", "class", "attribute", "method",
   "staticmethod", "classmethod"]

/-- docutils `Node.astext()`: concatenation of all text leaves below the
node (processed jointly for a node and a node list). -/
def astextA : Sum Node (List Node) → String
  | .inl (.textN s) => s
  | .inl (.sectionN _ _ cs) => astextA (.inr cs)
  | .inl (.descN _ cs) => astextA (.inr cs)
  | .inl (.descSig _ cs) => astextA (.inr cs)
  | .inl (.inlineN _ cs) => astextA (.inr cs)
  | .inl (.otherN cs) => astextA (.inr cs)
  | .inr [] => ""
  | .inr (c :: cs) => astextA (.inl c) ++ astextA (.inr cs)
termination_by x => sizeOf x
decreasing_by all_goals (simp_wf; try omega)

/-- docutils `Node.astext()` for a single node. -/
def astext (n : Node) : String := astextA (.inl n)

/-- The mutable state of a `CollectInfo` visitor: the three parallel
accumulator stacks (tops at the head; frame contents appended at the
right end, preserving document order), plus the registry it writes to and
the docname of the document being walked. -/
structure St where
  summary_stack : List String
  sig_stack : List (List String)
  desc_stack : List (List Node)
  tbl : Registry
  docname : String

/-- `CollectInfo.__init__` state for one document (stacks empty). -/
def initSt (tbl : Registry) (docname : String) : St :=
  { summary_stack := [], sig_stack := [], desc_stack := [], tbl := tbl,
    docname := docname }

/-- `CollectInfo._push` (indexer.py lines 196-199). -/
def pushFrame (s : St) : St :=
  { s with summary_stack := "" :: s.summary_stack,
           sig_stack := [] :: s.sig_stack,
           desc_stack := [] :: s.desc_stack }

/-- `CollectInfo._add_summary` (indexer.py lines 207-208):
`summary_stack[-1] = text_element_node[0].astext()`.  An inline node with
no children, or an empty stack, raises `IndexError`. -/
def addSummary (s : St) (children : List Node) : Except Err St :=
  match children with
  | [] => .error .indexError
  | c :: _ =>
    match s.summary_stack with
    | [] => .error .indexError
    | _ :: rest => .ok { s with summary_stack := astext c :: rest }

/-- `CollectInfo._add_sig` (indexer.py lines 210-211):
`sig_stack[-1].append(text_element_node[0].astext())`. -/
def addSig (s : St) (children : List Node) : Except Err St :=
  match children with
  | [] => .error .indexError
  | c :: _ =>
    match s.sig_stack with
    | [] => .error .indexError
    | top :: rest => .ok { s with sig_stack := (top ++ [astext c]) :: rest }

/-- `CollectInfo._add_desc` (indexer.py lines 204-205):
`desc_stack[-1].append(desc_node)`. -/
def addDesc (s : St) (node : Node) : Except Err St :=
  match s.desc_stack with
  | [] => .error .indexError
  | top :: rest => .ok { s with desc_stack := (top ++ [node]) :: rest }

/-- `CollectInfo._add_descinfo_entry` (indexer.py lines 190-194): compute
the registry key from the node's refid, stripping the module-prefix
marker, and assign. -/
def addDescinfoEntry (s : St) (node : Node) (entry : Entry) : Except Err St :=
  match get_refid node with
  | .error e => .error e
  | .ok k => .ok { s with tbl := dictInsert s.tbl (stripModule k) entry }

/-- The entry dict literal of `CollectInfo._add_descinfo`
(indexer.py lines 179-187). -/
def mkEntry (fn dtype summary : String) (sigs childRefs : List String)
    (r dn : String) : Entry :=
  { fullname := fn, desctype := dtype, summary := summary, signatures := sigs,
    children := childRefs, refid := r, docname := dn }

/-- The state after `CollectInfo._pop` (indexer.py lines 201-202). -/
def popSt (s : St) (sums : List String) (sigss : List (List String))
    (descss : List (List Node)) : St :=
  { s with summary_stack := sums, sig_stack := sigss, desc_stack := descss }

/-- `CollectInfo._add_descinfo` (indexer.py lines 178-188): build the
entry dict (field initializers evaluated in source order: fullname,
desctype, summary, signatures, children, refid, docname) and register
it. -/
def addDescinfo (s : St) (node : Node) (summary : String) (sigs : List String)
    (childDescs : List Node) : Except Err St :=
  match get_fullname node with
  | .error e => .error e
  | .ok fn =>
    match refidList childDescs with
    | .error e => .error e
    | .ok childRefs =>
      match get_refid node with
      | .error e => .error e
      | .ok r =>
        addDescinfoEntry s node
          (mkEntry fn (nodeDesctype node) summary sigs childRefs r s.docname)

/-- `CollectInfo.depart_section` (indexer.py lines 141-154): pop the
frame; a section without tree children records nothing; a
`module-`-prefixed first id records a fresh entry from the popped frame;
otherwise, when the frame accumulated at least one description child, the
first child's already-registered entry is looked up (`get_descinfo`) and
aliased under this section's key.  (`node["ids"][0]` on an empty ids list
is an `IndexError`; the source's dead `summary = ...get("summary", "")`
assignment on line 153 is omitted — its `get_descinfo` call is repeated
verbatim on line 154, so the error behaviour is identical.) -/
def departSection (s : St) (names ids : List String) (nchildren : List Node) :
    Except Err St :=
  match s.summary_stack, s.sig_stack, s.desc_stack with
  | summary :: sums, sigs :: sigss, childDescs :: descss =>
    if nchildren.isEmpty then .ok (popSt s sums sigss descss)
    else
      match ids with
      | [] => .error .indexError
      | id0 :: _ =>
        if strStartsWith id0 MODULE_ID_PREFIX then
          addDescinfo (popSt s sums sigss descss) (.sectionN names ids nchildren)
            summary sigs childDescs
        else
          match childDescs with
          | [] => .ok (popSt s sums sigss descss)
          | d :: _ =>
            match get_descinfo d s.tbl with
            | .error e => .error e
            | .ok entry =>
              addDescinfoEntry (popSt s sums sigss descss)
                (.sectionN names ids nchildren) entry
  | _, _, _ => .error .indexError

/-- `CollectInfo.depart_desc` (indexer.py lines 163-167): pop the frame,
register the entry, then append this node to the parent frame's children
list. -/
def departDesc (s : St) (dt : Option String) (nchildren : List Node) :
    Except Err St :=
  match s.summary_stack, s.sig_stack, s.desc_stack with
  | summary :: sums, sigs :: sigss, childDescs :: descss =>
    match addDescinfo (popSt s sums sigss descss)
        (.descN dt nchildren) summary sigs childDescs with
    | .error e => .error e
    | .ok s2 => addDesc s2 (.descN dt nchildren)
  | _, _, _ => .error .indexError

/-- `CollectInfo.visit_inline` (indexer.py lines 169-176): classify by the
`classes` attribute; `summaryline` takes priority over `signature`
(`elif`); anything else is ignored. -/
def classifyInline (s : St) (classes : List String) (children : List Node) :
    Except Err St :=
  if classes.contains "summaryline" then addSummary s children
  else if classes.contains "signature" then addSig s children
  else .ok s

/-- The docutils `walkabout` protocol specialized to `CollectInfo`,
processed jointly for a node (`Sum.inl`) and a sibling list (`Sum.inr`).
Per `docutils.nodes.Element.walkabout`: visit the node; `SkipNode`
(an unnamed section, an unrecognized desctype) prunes node and subtree
with no departure; `SkipDeparture` (every inline node) still walks the
children but suppresses the departure; otherwise walk the children and
then call the departure handler.  Nodes without a handler
(`unknown_visit` / `unknown_departure`) contribute nothing of their own.
The fuel argument bounds the recursion depth. -/
def walk : Nat → St → Sum Node (List Node) → Except Err St
  | 0, _, _ => .error .fuelOut
  | _ + 1, s, .inr [] => .ok s
  | fuel + 1, s, .inr (n :: ns) =>
    match walk fuel s (.inl n) with
    | .error e => .error e
    | .ok s1 => walk fuel s1 (.inr ns)
  | fuel + 1, s, .inl (.sectionN names ids cs) =>
    if names.isEmpty then .ok s
    else
      match walk fuel (pushFrame s) (.inr cs) with
      | .error e => .error e
      | .ok s1 => departSection s1 names ids cs
  | fuel + 1, s, .inl (.descN dt cs) =>
    if desctypes.contains (dt.getD "") then
      match walk fuel (pushFrame s) (.inr cs) with
      | .error e => .error e
      | .ok s1 => departDesc s1 dt cs
    else .ok s
  | fuel + 1, s, .inl (.inlineN classes cs) =>
    match classifyInline s classes cs with
    | .error e => .error e
    | .ok s1 => walk fuel s1 (.inr cs)
  | _ + 1, s, .inl (.textN _) => .ok s
  | fuel + 1, s, .inl (.descSig _ cs) => walk fuel s (.inr cs)
  | fuel + 1, s, .inl (.otherN cs) => walk fuel s (.inr cs)

/-- `walkabout` of a single node. -/
def walkNode (fuel : Nat) (s : St) (n : Node) : Except Err St :=
  walk fuel s (.inl n)

/-- `walkabout` of a sibling list. -/
def walkList (fuel : Nat) (s : St) (ns : List Node) : Except Err St :=
  walk fuel s (.inr ns)

/-- `collect_document_info` (indexer.py lines 81-82) for a document that
passed the `visit_document` source-path filter: walk the document's
children with a fresh visitor over the given registry. -/
def collectDocumentInfo (fuel : Nat) (tbl : Registry) (docname : String)
    (docChildren : List Node) : Except Err St :=
  walkList fuel (initSt tbl docname) docChildren

/-- `prep_document_info` (indexer.py lines 70-78): when the registry
attribute does not exist yet, do nothing; otherwise collect the keys of
the entries recorded for `docname` and delete each. -/
def prepDocumentInfo : Option Registry → String → Option Registry
  | none, _ => none
  | some tbl, docname =>
    let toRemove := (tbl.filter (fun kv => kv.2.docname == docname)).map Prod.fst
    some (toRemove.foldl dictDelete tbl)

/-- `tour_descinfo_refid` (`Sum.inl`) and its `for refid in
descinfo["children"]` loop (`Sum.inr`), indexer.py lines 224-228: a
missing key is fatal (`KeyError`); otherwise the entry is yielded before
its children, which are flattened in recorded order.  The fuel bounds the
recursion depth (Python's recursion limit). -/
def tourAux : Nat → Registry → Sum String (List String) → Except Err (List Entry)
  | 0, _, _ => .error .fuelOut
  | _ + 1, _, .inr [] => .ok []
  | fuel + 1, tbl, .inr (k :: ks) =>
    match tourAux fuel tbl (.inl k) with
    | .error e => .error e
    | .ok l =>
      match tourAux fuel tbl (.inr ks) with
      | .error e => .error e
      | .ok ls => .ok (l ++ ls)
  | fuel + 1, tbl, .inl k =>
    match lookupTbl tbl k with
    | none => .error .keyError
    | some e =>
      match tourAux fuel tbl (.inr e.children) with
      | .error e' => .error e'
      | .ok rest => .ok (e :: rest)

/-- `tour_descinfo_refid(fn, refid, env)` (indexer.py lines 224-228). -/
def tour_descinfo_refid (fuel : Nat) (tbl : Registry) (refid : String) :
    Except Err (List Entry) :=
  tourAux fuel tbl (.inl refid)

/-- Flattening a list of child refids in order. -/
def tourList (fuel : Nat) (tbl : Registry) (ks : List String) :
    Except Err (List Entry) :=
  tourAux fuel tbl (.inr ks)

/-- `tour_descinfo(fn, node, env)` (indexer.py lines 214-221): a
`GetError` while resolving the root (unresolvable node or absent key)
yields the empty sequence; otherwise the root entry followed by the
flattened children. -/
def tour_descinfo (fuel : Nat) (tbl : Registry) (node : Node) :
    Except Err (List Entry) :=
  match get_descinfo node tbl with
  | .error (.getError _) => .ok []
  | .error e => .error e
  | .ok d =>
    match tourList fuel tbl d.children with
    | .error e => .error e
    | .ok rest => .ok (d :: rest)

/-! ### Dictionary lemmas -/

theorem lookupTbl_dictInsert (tbl : Registry) (k : String) (e : Entry)
    (k' : String) :
    lookupTbl (dictInsert tbl k e) k' =
      if k' = k then some e else lookupTbl tbl k' := by
  induction tbl with
  | nil =>
    rcases eq_or_ne k' k with h | h
    · subst h; simp [dictInsert, lookupTbl]
    · simp [dictInsert, lookupTbl, h, (Ne.symm h : ¬ k = k')]
  | cons kv rest ih =>
    obtain ⟨k0, e0⟩ := kv
    by_cases h0 : k0 = k
    · subst h0
      rcases eq_or_ne k' k0 with h | h
      · subst h; simp [dictInsert, lookupTbl]
      · simp [dictInsert, lookupTbl, h, (Ne.symm h : ¬ k0 = k')]
    · rcases eq_or_ne k0 k' with h1 | h1
      · subst h1
        simp [dictInsert, lookupTbl, h0, (Ne.symm h0 : ¬ k = k0), ih]
      · simp [dictInsert, lookupTbl, h0, h1, ih]

theorem lookupTbl_dictInsert_isSome {tbl : Registry} {c : String}
    (h : (lookupTbl tbl c).isSome) (k : String) (e : Entry) :
    (lookupTbl (dictInsert tbl k e) c).isSome := by
  rw [lookupTbl_dictInsert]
  by_cases hc : c = k <;> simp [hc, h]

theorem stripModule_no_marker {r : String}
    (h : strStartsWith r MODULE_ID_PREFIX = false) : stripModule r = r := by
  simp [stripModule, h]

/-! ### Characterization lemmas for the visitor operations -/

theorem get_descinfo_ok {d : Node} {tbl : Registry} {E : Entry}
    (h : get_descinfo d tbl = .ok E) :
    ∃ rd, get_refid d = .ok rd ∧ lookupTbl tbl (stripModule rd) = some E := by
  unfold get_descinfo get_descinfo_refid at h
  cases hr : get_refid d with
  | error e => simp [hr] at h
  | ok rd =>
    simp only [hr] at h
    cases hl : lookupTbl tbl (stripModule rd) with
    | none => simp [hl] at h
    | some e0 =>
      simp only [hl] at h
      injection h with he
      subst he
      exact ⟨rd, rfl, hl⟩

theorem addDescinfoEntry_ok {s : St} {node : Node} {entry : Entry} {s' : St}
    (h : addDescinfoEntry s node entry = .ok s') :
    ∃ k, get_refid node = .ok k ∧
      s' = { s with tbl := dictInsert s.tbl (stripModule k) entry } := by
  unfold addDescinfoEntry at h
  cases hr : get_refid node with
  | error e => rw [hr] at h; exact absurd h (by simp)
  | ok k =>
    rw [hr] at h
    exact ⟨k, rfl, by simpa using h.symm⟩

theorem addDescinfo_ok {s : St} {node : Node} {summary : String}
    {sigs : List String} {cds : List Node} {s' : St}
    (h : addDescinfo s node summary sigs cds = .ok s') :
    ∃ fn rs r, get_fullname node = .ok fn ∧ refidList cds = .ok rs ∧
      get_refid node = .ok r ∧
      s' = { s with tbl := dictInsert s.tbl (stripModule r) (mkEntry fn (nodeDesctype node) summary sigs rs r s.docname) } := by
  unfold addDescinfo at h
  cases hf : get_fullname node with
  | error e => rw [hf] at h; exact absurd h (by simp)
  | ok fn =>
    rw [hf] at h
    cases hc : refidList cds with
    | error e => rw [hc] at h; exact absurd h (by simp)
    | ok rs =>
      rw [hc] at h
      cases hr : get_refid node with
      | error e => rw [hr] at h; exact absurd h (by simp)
      | ok r =>
        rw [hr] at h
        simp only [] at h
        obtain ⟨k, hk, hs⟩ := addDescinfoEntry_ok h
        rw [hr] at hk
        injection hk with hk'
        subst hk'
        exact ⟨fn, rs, r, rfl, rfl, rfl, hs⟩

theorem addDesc_ok {s : St} {node : Node} {s' : St}
    (h : addDesc s node = .ok s') :
    ∃ top rest, s.desc_stack = top :: rest ∧
      s' = { s with desc_stack := (top ++ [node]) :: rest } := by
  unfold addDesc at h
  cases hd : s.desc_stack with
  | nil => rw [hd] at h; exact absurd h (by simp)
  | cons top rest =>
    rw [hd] at h
    exact ⟨top, rest, rfl, by simpa using h.symm⟩

theorem departSection_ok {s : St} {names ids : List String} {nch : List Node}
    {s' : St} (h : departSection s names ids nch = .ok s') :
    ∃ sum sums sigs sigss cds descss,
      s.summary_stack = sum :: sums ∧ s.sig_stack = sigs :: sigss ∧
      s.desc_stack = cds :: descss ∧
      (s' = popSt s sums sigss descss ∨
       ∃ k E, s' = { popSt s sums sigss descss with tbl := dictInsert s.tbl k E } ∧
         ((∃ rs, refidList cds = .ok rs ∧ E.children = rs) ∨
          (∃ kk, lookupTbl s.tbl kk = some E))) := by
  unfold departSection at h
  split at h
  case h_2 => exact absurd h (by simp)
  case h_1 sum sums sigs sigss cds descss hsum hsig hdesc =>
    refine ⟨sum, sums, sigs, sigss, cds, descss, hsum, hsig, hdesc, ?_⟩
    split at h
    · exact Or.inl (by simpa using h.symm)
    · split at h
      · exact absurd h (by simp)
      · rename_i id0 idr
        split at h
        · -- module-prefixed first id: fresh entry from the popped frame
          obtain ⟨fn, rs, r, _, hrl, _, hs⟩ := addDescinfo_ok h
          refine Or.inr ⟨stripModule r,
            mkEntry fn (nodeDesctype (.sectionN names (id0 :: idr) nch)) sum sigs rs r s.docname,
            ?_, Or.inl ⟨rs, hrl, rfl⟩⟩
          exact hs
        · split at h
          · exact Or.inl (by simpa using h.symm)
          · rename_i d ds
            split at h
            case h_1 => exact absurd h (by simp)
            case h_2 E hE =>
              obtain ⟨rd, _, hl⟩ := get_descinfo_ok hE
              obtain ⟨k, _, hs⟩ := addDescinfoEntry_ok h
              exact Or.inr ⟨stripModule k, E, hs, Or.inr ⟨stripModule rd, hl⟩⟩

theorem departDesc_ok {s : St} {dt : Option String} {nch : List Node} {s' : St}
    (h : departDesc s dt nch = .ok s') :
    ∃ sum sums sigs sigss cds top rest fn rs r,
      s.summary_stack = sum :: sums ∧ s.sig_stack = sigs :: sigss ∧
      s.desc_stack = cds :: top :: rest ∧
      get_fullname (.descN dt nch) = .ok fn ∧ refidList cds = .ok rs ∧
      get_refid (.descN dt nch) = .ok r ∧
      s' = { popSt s sums sigss ((top ++ [Node.descN dt nch]) :: rest) with tbl := dictInsert s.tbl (stripModule r) (mkEntry fn (nodeDesctype (Node.descN dt nch)) sum sigs rs r s.docname) } := by
  unfold departDesc at h
  split at h
  case h_2 => exact absurd h (by simp)
  case h_1 sum sums sigs sigss cds descss hsum hsig hdesc =>
    cases ha : addDescinfo (popSt s sums sigss descss) (.descN dt nch) sum sigs cds with
    | error e => rw [ha] at h; exact absurd h (by simp)
    | ok s2 =>
      rw [ha] at h
      simp only [] at h
      obtain ⟨fn, rs, r, hfn, hrl, hr, hs2⟩ := addDescinfo_ok ha
      obtain ⟨top, rest, htop, hs'⟩ := addDesc_ok h
      subst hs2
      simp only [popSt] at htop
      subst htop
      refine ⟨sum, sums, sigs, sigss, cds, top, rest, fn, rs, r,
        hsum, hsig, hdesc, hfn, hrl, hr, ?_⟩
      rw [hs']
      rfl

theorem classifyInline_ok {s : St} {classes : List String}
    {children : List Node} {s' : St}
    (h : classifyInline s classes children = .ok s') :
    s'.desc_stack = s.desc_stack ∧ s'.tbl = s.tbl ∧ s'.docname = s.docname ∧
    s'.summary_stack.length = s.summary_stack.length ∧
    s'.sig_stack.length = s.sig_stack.length := by
  unfold classifyInline at h
  split at h
  · unfold addSummary at h
    split at h
    · exact absurd h (by simp)
    · split at h
      · exact absurd h (by simp)
      · rename_i hs
        cases h
        simp [hs]
  · split at h
    · unfold addSig at h
      split at h
      · exact absurd h (by simp)
      · split at h
        · exact absurd h (by simp)
        · rename_i hs
          cases h
          simp [hs]
    · cases h
      simp

/-! ### Stack balance: a successful walk restores all three stack depths -/

theorem walk_lens (fuel : Nat) :
    ∀ (x : Sum Node (List Node)) (s s' : St), walk fuel s x = .ok s' →
      s'.summary_stack.length = s.summary_stack.length ∧
      s'.sig_stack.length = s.sig_stack.length ∧
      s'.desc_stack.length = s.desc_stack.length := by
  induction fuel with
  | zero => intro x s s' h; simp [walk] at h
  | succ f ih =>
    intro x s s' h
    match x with
    | .inr [] =>
      simp only [walk] at h
      cases h
      exact ⟨rfl, rfl, rfl⟩
    | .inr (n :: ns) =>
      simp only [walk] at h
      cases hw : walk f s (.inl n) with
      | error e => rw [hw] at h; exact absurd h (by simp)
      | ok s1 =>
        rw [hw] at h
        simp only [] at h
        obtain ⟨a1, b1, c1⟩ := ih (.inl n) s s1 hw
        obtain ⟨a2, b2, c2⟩ := ih (.inr ns) s1 s' h
        exact ⟨a2.trans a1, b2.trans b1, c2.trans c1⟩
    | .inl (.sectionN names ids cs) =>
      simp only [walk] at h
      split at h
      · cases h; exact ⟨rfl, rfl, rfl⟩
      · cases hw : walk f (pushFrame s) (.inr cs) with
        | error e => rw [hw] at h; exact absurd h (by simp)
        | ok s1 =>
          rw [hw] at h
          simp only [] at h
          obtain ⟨a1, b1, c1⟩ := ih (.inr cs) (pushFrame s) s1 hw
          simp only [pushFrame, List.length_cons] at a1 b1 c1
          obtain ⟨sum, sums, sigs, sigss, cds, descss, hsum, hsig, hdesc, hor⟩ :=
            departSection_ok h
          rw [hsum] at a1
          rw [hsig] at b1
          rw [hdesc] at c1
          simp only [List.length_cons] at a1 b1 c1
          rcases hor with hs' | ⟨k, E, hs', _⟩ <;>
            (subst hs'; simp only [popSt]; constructor;
             · omega
             · constructor <;> omega)
    | .inl (.descN dt cs) =>
      simp only [walk] at h
      split at h
      · cases hw : walk f (pushFrame s) (.inr cs) with
        | error e => rw [hw] at h; exact absurd h (by simp)
        | ok s1 =>
          rw [hw] at h
          simp only [] at h
          obtain ⟨a1, b1, c1⟩ := ih (.inr cs) (pushFrame s) s1 hw
          simp only [pushFrame, List.length_cons] at a1 b1 c1
          obtain ⟨sum, sums, sigs, sigss, cds, top, rest, fn, rs, r,
            hsum, hsig, hdesc, _, _, _, hs'⟩ := departDesc_ok h
          rw [hsum] at a1
          rw [hsig] at b1
          rw [hdesc] at c1
          simp only [List.length_cons] at a1 b1 c1
          subst hs'
          simp only [popSt]
          refine ⟨by omega, by omega, by simp [List.length_cons]; omega⟩
      · cases h; exact ⟨rfl, rfl, rfl⟩
    | .inl (.inlineN classes cs) =>
      simp only [walk] at h
      cases hc : classifyInline s classes cs with
      | error e => rw [hc] at h; exact absurd h (by simp)
      | ok s1 =>
        rw [hc] at h
        simp only [] at h
        obtain ⟨_, _, _, a1, b1⟩ := classifyInline_ok hc
        obtain ⟨a2, b2, c2⟩ := ih (.inr cs) s1 s' h
        obtain ⟨hd, _, _, _, _⟩ := classifyInline_ok hc
        exact ⟨a2.trans a1, b2.trans b1, c2.trans (by rw [hd])⟩
    | .inl (.textN t) =>
      simp only [walk] at h
      cases h
      exact ⟨rfl, rfl, rfl⟩
    | .inl (.descSig ids cs) =>
      simp only [walk] at h
      exact ih (.inr cs) s s' h
    | .inl (.otherN cs) =>
      simp only [walk] at h
      exact ih (.inr cs) s s' h

/-! ### Registry closure: children lists only name registered keys -/

/-- Whether a node's own refid, when resolvable, avoids the module-prefix
marker.  (In Sphinx trees the `module-` prefix occurs on section targets,
not on description signature ids.) -/
def descRefOK (n : Node) : Bool :=
  match get_refid n with
  | .ok r => !(strStartsWith r MODULE_ID_PREFIX)
  | .error _ => true

/-- No description node anywhere below has a module-prefixed refid. -/
def descIdsOKA : Sum Node (List Node) → Bool
  | .inl (.descN dt cs) => descRefOK (.descN dt cs) && descIdsOKA (.inr cs)
  | .inl (.sectionN _ _ cs) => descIdsOKA (.inr cs)
  | .inl (.descSig _ cs) => descIdsOKA (.inr cs)
  | .inl (.inlineN _ cs) => descIdsOKA (.inr cs)
  | .inl (.otherN cs) => descIdsOKA (.inr cs)
  | .inl (.textN _) => true
  | .inr [] => true
  | .inr (n :: ns) => descIdsOKA (.inl n) && descIdsOKA (.inr ns)
termination_by x => sizeOf x
decreasing_by all_goals (simp_wf; try omega)

/-- The registry closure invariant: every key recorded in some entry's
children list is itself a registry key. -/
def closedTbl (tbl : Registry) : Prop :=
  ∀ k e, lookupTbl tbl k = some e → ∀ c ∈ e.children, (lookupTbl tbl c).isSome

/-- Every description node accumulated in a pending frame resolves to a
prefix-free refid that is already a registry key. -/
def framesOK (tbl : Registry) (stack : List (List Node)) : Prop :=
  ∀ frame ∈ stack, ∀ n ∈ frame, ∃ r, get_refid n = .ok r ∧
    strStartsWith r MODULE_ID_PREFIX = false ∧ (lookupTbl tbl r).isSome

/-- The walk invariant combining registry closure with the pending-frame
condition. -/
def WInv (s : St) : Prop := closedTbl s.tbl ∧ framesOK s.tbl s.desc_stack

theorem refidList_mem {ds : List Node} {rs : List String}
    (h : refidList ds = .ok rs) {r : String} (hr : r ∈ rs) :
    ∃ n ∈ ds, get_refid n = .ok r := by
  induction ds generalizing rs with
  | nil =>
    unfold refidList at h
    cases h
    simp at hr
  | cons n ns ih =>
    unfold refidList at h
    cases h1 : get_refid n with
    | error e => rw [h1] at h; exact absurd h (by simp)
    | ok r0 =>
      rw [h1] at h
      cases h2 : refidList ns with
      | error e => rw [h2] at h; exact absurd h (by simp)
      | ok rs0 =>
        rw [h2] at h
        simp only [] at h
        injection h with h
        subst h
        rcases List.mem_cons.mp hr with h | h
        · subst h; exact ⟨n, List.mem_cons_self n ns, h1⟩
        · obtain ⟨m, hm, hmr⟩ := ih h2 h
          exact ⟨m, List.mem_cons_of_mem n hm, hmr⟩

theorem closedTbl_dictInsert {tbl : Registry} {k : String} {e : Entry}
    (hc : closedTbl tbl)
    (he : ∀ c ∈ e.children, (lookupTbl tbl c).isSome) :
    closedTbl (dictInsert tbl k e) := by
  intro k' e' hk' c hcc
  rw [lookupTbl_dictInsert] at hk'
  by_cases h : k' = k
  · rw [if_pos h] at hk'
    injection hk' with he'
    subst he'
    exact lookupTbl_dictInsert_isSome (he c hcc) k e
  · rw [if_neg h] at hk'
    exact lookupTbl_dictInsert_isSome (hc k' e' hk' c hcc) k e

theorem framesOK_dictInsert {tbl : Registry} {stack : List (List Node)}
    (h : framesOK tbl stack) (k : String) (e : Entry) :
    framesOK (dictInsert tbl k e) stack := by
  intro f hf n hn
  obtain ⟨r, h1, h2, h3⟩ := h f hf n hn
  exact ⟨r, h1, h2, lookupTbl_dictInsert_isSome h3 k e⟩

theorem framesOK_tail {tbl : Registry} {c : List Node}
    {stack : List (List Node)} (h : framesOK tbl (c :: stack)) :
    framesOK tbl stack := by
  intro f hf n hn
  exact h f (List.mem_cons_of_mem c hf) n hn

set_option maxHeartbeats 2000000 in
/-- A successful walk of module-prefix-free trees preserves the registry
closure plus pending-frame invariant. -/
theorem walk_winv (fuel : Nat) :
    ∀ (x : Sum Node (List Node)) (s s' : St), descIdsOKA x = true →
      WInv s → walk fuel s x = .ok s' → WInv s' := by
  induction fuel with
  | zero => intro x s s' _ _ h; simp [walk] at h
  | succ f ih =>
    intro x s s' hok hw h
    match x with
    | .inr [] =>
      simp only [walk] at h
      cases h
      exact hw
    | .inr (n :: ns) =>
      simp only [walk] at h
      rw [descIdsOKA, Bool.and_eq_true] at hok
      cases hw1 : walk f s (.inl n) with
      | error e => rw [hw1] at h; exact absurd h (by simp)
      | ok s1 =>
        rw [hw1] at h
        simp only [] at h
        exact ih (.inr ns) s1 s' hok.2 (ih (.inl n) s s1 hok.1 hw hw1) h
    | .inl (.sectionN names ids cs) =>
      simp only [walk] at h
      rw [descIdsOKA] at hok
      split at h
      · cases h; exact hw
      · cases hw1 : walk f (pushFrame s) (.inr cs) with
        | error e => rw [hw1] at h; exact absurd h (by simp)
        | ok s1 =>
          rw [hw1] at h
          simp only [] at h
          have hwpush : WInv (pushFrame s) := by
            refine ⟨hw.1, ?_⟩
            intro fr hfr n hn
            rcases List.mem_cons.mp hfr with hfr | hfr
            · subst hfr; simp at hn
            · exact hw.2 fr hfr n hn
          have hw2 : WInv s1 := ih (.inr cs) (pushFrame s) s1 hok hwpush hw1
          obtain ⟨sum, sums, sigs, sigss, cds, descss, hsum, hsig, hdesc, hor⟩ :=
            departSection_ok h
          have hframes : framesOK s1.tbl (cds :: descss) := by
            rw [← hdesc]; exact hw2.2
          rcases hor with hs' | ⟨k, E, hs', hE⟩
          · subst hs'
            exact ⟨hw2.1, framesOK_tail hframes⟩
          · subst hs'
            have he : ∀ c ∈ E.children, (lookupTbl s1.tbl c).isSome := by
              rcases hE with ⟨rs, hrl, hEc⟩ | ⟨kk, hlk⟩
              · intro c hcc
                rw [hEc] at hcc
                obtain ⟨n, hn, hnr⟩ := refidList_mem hrl hcc
                obtain ⟨r, h1, _, h3⟩ :=
                  hframes cds (List.mem_cons_self cds descss) n hn
                exact (Except.ok.inj (h1.symm.trans hnr)) ▸ h3
              · intro c hcc
                exact hw2.1 kk E hlk c hcc
            exact ⟨closedTbl_dictInsert hw2.1 he,
              framesOK_dictInsert (framesOK_tail hframes) k E⟩
    | .inl (.descN dt cs) =>
      simp only [walk] at h
      rw [descIdsOKA, Bool.and_eq_true] at hok
      split at h
      · cases hw1 : walk f (pushFrame s) (.inr cs) with
        | error e => rw [hw1] at h; exact absurd h (by simp)
        | ok s1 =>
          rw [hw1] at h
          simp only [] at h
          have hwpush : WInv (pushFrame s) := by
            refine ⟨hw.1, ?_⟩
            intro fr hfr n hn
            rcases List.mem_cons.mp hfr with hfr | hfr
            · subst hfr; simp at hn
            · exact hw.2 fr hfr n hn
          have hw2 : WInv s1 := ih (.inr cs) (pushFrame s) s1 hok.2 hwpush hw1
          obtain ⟨sum, sums, sigs, sigss, cds, top, rest, fn, rs, r,
            hsum, hsig, hdesc, hfn, hrl, hr, hs'⟩ := departDesc_ok h
          have hframes : framesOK s1.tbl (cds :: top :: rest) := by
            rw [← hdesc]; exact hw2.2
          have hpre : strStartsWith r MODULE_ID_PREFIX = false := by
            have := hok.1
            rw [descRefOK, hr] at this
            simpa using this
          have hstrip : stripModule r = r := stripModule_no_marker hpre
          subst hs'
          rw [hstrip]
          have he : ∀ c ∈ (mkEntry fn (nodeDesctype (Node.descN dt cs)) sum sigs rs r s1.docname).children,
          (lookupTbl s1.tbl c).isSome := by
            intro c hcc
            simp only [mkEntry] at hcc
            obtain ⟨n, hn, hnr⟩ := refidList_mem hrl hcc
            obtain ⟨r', h1, _, h3⟩ :=
              hframes cds (List.mem_cons_self cds (top :: rest)) n hn
            exact (Except.ok.inj (h1.symm.trans hnr)) ▸ h3
          refine ⟨closedTbl_dictInsert hw2.1 he, ?_⟩
          intro fr hfr n hn
          rcases List.mem_cons.mp hfr with hfr | hfr
          · subst hfr
            rcases List.mem_append.mp hn with hn | hn
            · obtain ⟨r', h1, h2, h3⟩ := (framesOK_tail hframes) top
                (List.mem_cons_self top rest) n hn
              exact ⟨r', h1, h2, lookupTbl_dictInsert_isSome h3 r _⟩
            · rcases List.mem_singleton.mp hn with hn
              subst hn
              refine ⟨r, hr, hpre, ?_⟩
              rw [lookupTbl_dictInsert]
              simp
          · obtain ⟨r', h1, h2, h3⟩ := (framesOK_tail (framesOK_tail hframes))
              fr hfr n hn
            exact ⟨r', h1, h2, lookupTbl_dictInsert_isSome h3 r _⟩
      · cases h; exact hw
    | .inl (.inlineN classes cs) =>
      simp only [walk] at h
      rw [descIdsOKA] at hok
      cases hc : classifyInline s classes cs with
      | error e => rw [hc] at h; exact absurd h (by simp)
      | ok s1 =>
        rw [hc] at h
        simp only [] at h
        obtain ⟨hd, ht, _, _, _⟩ := classifyInline_ok hc
        have hw1 : WInv s1 := by
          refine ⟨?_, ?_⟩
          · rw [ht]; exact hw.1
          · rw [ht, hd]; exact hw.2
        exact ih (.inr cs) s1 s' hok hw1 h
    | .inl (.textN t) =>
      simp only [walk] at h
      cases h
      exact hw
    | .inl (.descSig ids cs) =>
      simp only [walk] at h
      rw [descIdsOKA] at hok
      exact ih (.inr cs) s s' hok hw h
    | .inl (.otherN cs) =>
      simp only [walk] at h
      rw [descIdsOKA] at hok
      exact ih (.inr cs) s s' hok hw h


/-! ### Fuel monotonicity of the traversal -/

theorem tourAux_mono (fuel : Nat) :
    ∀ (x : Sum String (List String)) (tbl : Registry) (l : List Entry),
      tourAux fuel tbl x = .ok l → tourAux (fuel + 1) tbl x = .ok l := by
  induction fuel with
  | zero => intro x tbl l h; simp [tourAux] at h
  | succ f ih =>
    intro x tbl l h
    match x with
    | .inr [] =>
      rw [tourAux] at h ⊢
      exact h
    | .inr (k :: ks) =>
      rw [tourAux] at h ⊢
      cases h1 : tourAux f tbl (.inl k) with
      | error e => rw [h1] at h; exact absurd h (by simp)
      | ok l1 =>
        rw [h1] at h
        rw [ih (.inl k) tbl l1 h1]
        simp only [] at h ⊢
        cases h2 : tourAux f tbl (.inr ks) with
        | error e => rw [h2] at h; exact absurd h (by simp)
        | ok l2 =>
          rw [h2] at h
          rw [ih (.inr ks) tbl l2 h2]
          exact h
    | .inl k =>
      rw [tourAux] at h ⊢
      cases hl : lookupTbl tbl k with
      | none => rw [hl] at h; exact absurd h (by simp)
      | some e =>
        rw [hl] at h
        simp only [] at h ⊢
        cases h1 : tourAux f tbl (.inr e.children) with
        | error e' => rw [h1] at h; exact absurd h (by simp)
        | ok rest =>
          rw [h1] at h
          rw [ih (.inr e.children) tbl rest h1]
          exact h

theorem tourAux_mono_le {f g : Nat} (hfg : f ≤ g) {x : Sum String (List String)}
    {tbl : Registry} {l : List Entry} (h : tourAux f tbl x = .ok l) :
    tourAux g tbl x = .ok l := by
  induction hfg with
  | refl => exact h
  | step _ ih => exact tourAux_mono _ x tbl l ih

/-! ### Inline classification within one frame -/

/-- `text_element_node[0].astext()` for the recorded child list. -/
def firstText : List Node → String
  | [] => ""
  | c :: _ => astext c

/-- Last element of a list, or the fallback when empty. -/
def lastD : List String → String → String
  | [], a => a
  | x :: xs, _ => lastD xs x

/-- The texts of the `summaryline`-classified inline nodes of a subtree, in
encounter (preorder) order. -/
def sumTextsA : Sum Node (List Node) → List String
  | .inl (.inlineN cs children) =>
    (if cs.contains "summaryline" then [firstText children] else []) ++
      sumTextsA (.inr children)
  | .inl (.otherN cs) => sumTextsA (.inr cs)
  | .inl (.sectionN _ _ _) => []
  | .inl (.descN _ _) => []
  | .inl (.descSig _ _) => []
  | .inl (.textN _) => []
  | .inr [] => []
  | .inr (n :: ns) => sumTextsA (.inl n) ++ sumTextsA (.inr ns)
termination_by x => sizeOf x
decreasing_by all_goals (simp_wf; try omega)

/-- The texts of the `signature`-classified inline nodes of a subtree (the
ones not also tagged `summaryline`, which takes priority), in encounter
(preorder) order. -/
def sigTextsA : Sum Node (List Node) → List String
  | .inl (.inlineN cs children) =>
    (if !cs.contains "summaryline" && cs.contains "signature" then
       [firstText children] else []) ++
      sigTextsA (.inr children)
  | .inl (.otherN cs) => sigTextsA (.inr cs)
  | .inl (.sectionN _ _ _) => []
  | .inl (.descN _ _) => []
  | .inl (.descSig _ _) => []
  | .inl (.textN _) => []
  | .inr [] => []
  | .inr (n :: ns) => sigTextsA (.inl n) ++ sigTextsA (.inr ns)
termination_by x => sizeOf x
decreasing_by all_goals (simp_wf; try omega)

/-- Subtrees built only from inline, text and other elements (no section,
desc or signature node, whose visits manipulate frames), in which every
classified inline node has at least one child. -/
def inlineOnlyA : Sum Node (List Node) → Bool
  | .inl (.textN _) => true
  | .inl (.inlineN cs children) =>
    (!(cs.contains "summaryline" || cs.contains "signature") ||
      !children.isEmpty) && inlineOnlyA (.inr children)
  | .inl (.otherN cs) => inlineOnlyA (.inr cs)
  | .inl (.sectionN _ _ _) => false
  | .inl (.descN _ _) => false
  | .inl (.descSig _ _) => false
  | .inr [] => true
  | .inr (n :: ns) => inlineOnlyA (.inl n) && inlineOnlyA (.inr ns)
termination_by x => sizeOf x
decreasing_by all_goals (simp_wf; try omega)

theorem lastD_append (xs ys : List String) (a : String) :
    lastD (xs ++ ys) a = lastD ys (lastD xs a) := by
  induction xs generalizing a with
  | nil => rfl
  | cons x xs ih =>
    simp only [List.cons_append, lastD]
    exact ih x

set_option maxHeartbeats 1000000 in
/-- Within one frame, walking inline-only subtrees rewrites the top
summary to the text of the last `summaryline`-classified node (keeping the
previous value when there is none) and appends the texts of the
`signature`-classified nodes in encounter order; nothing else changes. -/
theorem walk_inline (fuel : Nat) :
    ∀ (x : Sum Node (List Node)) (s s' : St), inlineOnlyA x = true →
      ∀ a as g gs, s.summary_stack = a :: as → s.sig_stack = g :: gs →
      walk fuel s x = .ok s' →
      s' = { s with summary_stack := lastD (sumTextsA x) a :: as,
                    sig_stack := (g ++ sigTextsA x) :: gs } := by
  induction fuel with
  | zero => intro x s s' _ _ _ _ _ _ _ h; simp [walk] at h
  | succ f ih =>
    intro x s s' hok a as g gs hsum hsig h
    match x with
    | .inr [] =>
      simp only [walk] at h
      cases h
      simp only [sumTextsA, sigTextsA, lastD, List.append_nil]
      rw [← hsum, ← hsig]
    | .inr (n :: ns) =>
      simp only [walk] at h
      rw [inlineOnlyA, Bool.and_eq_true] at hok
      cases hw1 : walk f s (.inl n) with
      | error e => rw [hw1] at h; exact absurd h (by simp)
      | ok s1 =>
        rw [hw1] at h
        simp only [] at h
        have hs1 := ih (.inl n) s s1 hok.1 a as g gs hsum hsig hw1
        have hs' := ih (.inr ns) s1 s' hok.2 (lastD (sumTextsA (.inl n)) a)
          as (g ++ sigTextsA (.inl n)) gs (by rw [hs1]) (by rw [hs1]) h
        rw [hs', hs1]
        simp only [sumTextsA, sigTextsA, lastD_append, List.append_assoc]
    | .inl (.textN t) =>
      simp only [walk] at h
      cases h
      simp only [sumTextsA, sigTextsA, lastD, List.append_nil]
      rw [← hsum, ← hsig]
    | .inl (.otherN cs) =>
      simp only [walk] at h
      rw [inlineOnlyA] at hok
      have hs' := ih (.inr cs) s s' hok a as g gs hsum hsig h
      rw [hs']
      simp only [sumTextsA, sigTextsA]
    | .inl (.descSig ids cs) =>
      rw [inlineOnlyA] at hok
      exact absurd hok (by simp)
    | .inl (.sectionN names ids cs) =>
      rw [inlineOnlyA] at hok
      exact absurd hok (by simp)
    | .inl (.descN dt cs) =>
      rw [inlineOnlyA] at hok
      exact absurd hok (by simp)
    | .inl (.inlineN cs children) =>
      simp only [walk] at h
      rw [inlineOnlyA, Bool.and_eq_true] at hok
      cases hcl : classifyInline s cs children with
      | error e => rw [hcl] at h; exact absurd h (by simp)
      | ok s1 =>
        rw [hcl] at h
        simp only [] at h
        by_cases hc1 : "summaryline" ∈ cs
        · cases children with
          | nil => simp [classifyInline, addSummary, hc1] at hcl
          | cons c crest =>
            simp [classifyInline, addSummary, hc1, hsum] at hcl
            subst hcl
            have hs' := ih (.inr (c :: crest))
              { s with summary_stack := astext c :: as } s' hok.2 (astext c)
              as g gs rfl hsig h
            rw [hs']
            simp [sumTextsA, sigTextsA, firstText, hc1, lastD_append, lastD]
        · by_cases hc2 : "signature" ∈ cs
          · cases children with
            | nil => simp [classifyInline, addSig, hc1, hc2] at hcl
            | cons c crest =>
              simp [classifyInline, addSig, hc1, hc2, hsig] at hcl
              subst hcl
              have hs' := ih (.inr (c :: crest))
                { s with sig_stack := (g ++ [astext c]) :: gs } s' hok.2 a as
                (g ++ [astext c]) gs hsum rfl h
              rw [hs']
              simp [sumTextsA, sigTextsA, firstText, hc1, hc2,
                List.append_assoc]
          · simp [classifyInline, hc1, hc2] at hcl
            subst hcl
            have hs' := ih (.inr children) _ s' hok.2 a as g gs hsum hsig h
            rw [hs']
            simp [sumTextsA, sigTextsA, hc1, hc2]

end Indexer

namespace Indexer

/-! ### Purge semantics -/

theorem foldl_dictDelete (K : List String) (tbl : Registry) :
    K.foldl dictDelete tbl = tbl.filter (fun kv => !(K.contains kv.1)) := by
  induction K generalizing tbl with
  | nil => simp [List.foldl]
  | cons k K ih =>
    rw [List.foldl_cons, ih, dictDelete, List.filter_filter]
    apply List.filter_congr
    intro kv _
    simp only [List.contains_cons, Bool.not_or]
    rw [Bool.and_comm]

theorem purge_eq_filter {tbl : Registry} (d : String)
    (hnd : (tbl.map Prod.fst).Nodup) :
    prepDocumentInfo (some tbl) d =
      some (tbl.filter (fun kv => !(kv.2.docname == d))) := by
  rw [prepDocumentInfo]
  simp only [foldl_dictDelete]
  congr 1
  apply List.filter_congr
  intro kv hkv
  have hmain :
      ((tbl.filter (fun kv => kv.2.docname == d)).map Prod.fst).contains kv.1 =
        (kv.2.docname == d) := by
    apply Bool.coe_iff_coe.mp
    rw [List.elem_iff]
    constructor
    · intro hmem
      obtain ⟨kv', hkv', hfst⟩ := List.mem_map.mp hmem
      obtain ⟨hkv'm, hkv'd⟩ := List.mem_filter.mp hkv'
      have hkk : kv' = kv := List.inj_on_of_nodup_map hnd hkv'm hkv hfst
      rw [hkk] at hkv'd
      exact hkv'd
    · intro hdn
      exact List.mem_map.mpr ⟨kv, List.mem_filter.mpr ⟨hkv, hdn⟩, rfl⟩
  rw [hmain]
end Indexer

namespace Indexer

/-! ### Traversal unfolding helpers -/

theorem tourAux_nil (fuel : Nat) (tbl : Registry) :
    tourAux (fuel + 1) tbl (.inr []) = .ok [] := by
  rw [tourAux]

theorem tourAux_cons {fuel : Nat} {tbl : Registry} {k : String}
    {ks : List String} {l ls : List Entry}
    (h1 : tourAux fuel tbl (.inl k) = .ok l)
    (h2 : tourAux fuel tbl (.inr ks) = .ok ls) :
    tourAux (fuel + 1) tbl (.inr (k :: ks)) = .ok (l ++ ls) := by
  rw [tourAux, h1]
  simp only []
  rw [h2]

/-- C2: for every registry state and starting node whose resolved registry
key (after stripping the module-prefix marker) is absent from the
registry, `tour_descinfo` produces the empty sequence and raises no
error. -/
theorem flatten_absent_key_empty (fuel : Nat) (tbl : Registry) (node : Node)
    (r : String) (hr : get_refid node = .ok r)
    (habs : lookupTbl tbl (stripModule r) = none) :
    tour_descinfo fuel tbl node = .ok [] := by
  simp [tour_descinfo, get_descinfo, get_descinfo_refid, hr, habs]

/-- Witness for C2 at a concrete section node and the empty registry. -/
theorem flatten_absent_key_empty_witness :
    tour_descinfo 3 [] (.sectionN ["x"] ["x"] []) = .ok [] :=
  flatten_absent_key_empty 3 [] (.sectionN ["x"] ["x"] []) "x" rfl rfl

/-- C3: flattening a registered entry with recorded children `[a, b, c]`
yields the entry itself first, then each child's flattening in recorded
document order, depth first (given enough fuel). -/
theorem flatten_parent_before_children (fuel : Nat) (tbl : Registry)
    (k a b c : String) (e : Entry) (la lb lc : List Entry)
    (hk : lookupTbl tbl k = some e) (hch : e.children = [a, b, c])
    (ha : tour_descinfo_refid fuel tbl a = .ok la)
    (hb : tour_descinfo_refid fuel tbl b = .ok lb)
    (hc : tour_descinfo_refid fuel tbl c = .ok lc) :
    tour_descinfo_refid (fuel + 4) tbl k = .ok (e :: (la ++ lb ++ lc)) := by
  cases fuel with
  | zero =>
    rw [tour_descinfo_refid, tourAux] at ha
    exact absurd ha (by simp)
  | succ f =>
    have h0 : tourAux (f + 1) tbl (.inr []) = .ok [] := tourAux_nil f tbl
    have s1 : tourAux (f + 2) tbl (.inr [c]) = .ok (lc ++ []) :=
      tourAux_cons hc h0
    have s2 : tourAux (f + 3) tbl (.inr [b, c]) = .ok (lb ++ (lc ++ [])) :=
      tourAux_cons (tourAux_mono_le (by omega) hb) s1
    have s3 : tourAux (f + 4) tbl (.inr [a, b, c]) =
        .ok (la ++ (lb ++ (lc ++ []))) :=
      tourAux_cons (tourAux_mono_le (by omega) ha) s2
    show tourAux (f + 4 + 1) tbl (.inl k) = _
    rw [tourAux, hk]
    simp only []
    rw [hch, s3]
    simp [List.append_assoc]

/-- A sample entry for exercising the traversal theorems. -/
def wE (nm : String) (ch : List String) : Entry :=
  mkEntry nm "function" "" [] ch nm "d"

/-- A sample registry: `s` has the children `[a, b, c]`, which are leaves. -/
def wTbl : Registry :=
  [("s", wE "s" ["a", "b", "c"]), ("a", wE "a" []), ("b", wE "b" []),
   ("c", wE "c" [])]

/-- Witness for C3 on the sample registry. -/
theorem flatten_parent_before_children_witness :
    tour_descinfo_refid 6 wTbl "s" =
      .ok [wE "s" ["a", "b", "c"], wE "a" [], wE "b" [], wE "c" []] := by
  have h := flatten_parent_before_children 2 wTbl "s" "a" "b" "c"
    (wE "s" ["a", "b", "c"]) [wE "a" []] [wE "b" []] [wE "c" []]
    rfl rfl rfl rfl rfl
  simpa using h

/-- A document whose recognized description node has a signature child
with an empty ids list (the malformed-node shape of C5). -/
def malformedDoc : List Node :=
  [.sectionN ["s"] ["s"] [.descN (some "function") [.descSig [] []]]]

/-- C5 counterexample: the malformed description raises a `GetError` out
of `depart_desc` that nothing in the walk catches, so the indexing walk of
the document aborts instead of completing with one entry unavailable. -/
theorem malformed_desc_walk_aborts_cex :
    collectDocumentInfo 10 [] "doc" malformedDoc =
      .error (.getError "No fullname: desc's child has empty names list") := rfl

/-- C5 (amended): the lookup error raised for a malformed node is
recoverable only at the traversal entry point — `tour_descinfo` on a node
whose resolution raises `GetError` yields the empty sequence — while the
same error raised during the indexing walk propagates and aborts that
document's walk. -/
theorem malformed_recovery_amended :
    (∀ (fuel : Nat) (tbl : Registry) (node : Node) (msg : String),
       get_descinfo node tbl = .error (.getError msg) →
       tour_descinfo fuel tbl node = .ok []) ∧
    collectDocumentInfo 10 [] "doc" malformedDoc =
      .error (.getError "No fullname: desc's child has empty names list") := by
  constructor
  · intro fuel tbl node msg h
    rw [tour_descinfo, h]
  · rfl

/-- Witness for C5 at a section with an empty ids list. -/
theorem malformed_recovery_amended_witness :
    tour_descinfo 3 [] (.sectionN ["x"] [] []) = .ok [] :=
  malformed_recovery_amended.1 3 [] (.sectionN ["x"] [] [])
    "Node has empty ids list" rfl

/-- A classified inline node with a classified inline node nested inside
its subtree. -/
def nestedInline : Node :=
  .inlineN ["signature"] [.textN "sig", .inlineN ["summaryline"] [.textN "oops"]]

/-- C7 counterexample: walking a `signature`-classified inline node whose
subtree contains a `summaryline`-tagged inline node records the nested
node's text as the frame summary — the subtree IS descended into after
classification (docutils `SkipDeparture` only skips the departure call). -/
theorem inline_subtree_descended_cex :
    walkNode 6 (pushFrame (initSt [] "d")) nestedInline =
      .ok { summary_stack := ["oops"], sig_stack := [["sig"]], desc_stack := [[]], tbl := [], docname := "d" } := by
  simp [walkNode, walk, nestedInline, pushFrame, initSt, classifyInline,
    addSummary, addSig, astext, astextA]

/-- C7 (amended): visiting an inline node classifies it and then walks its
children from the post-classification state; only the departure call is
suppressed. -/
theorem inline_skip_departure_amended (fuel : Nat) (s : St) (cs : List String)
    (children : List Node) (s' : St)
    (h : walkNode (fuel + 1) s (.inlineN cs children) = .ok s') :
    ∃ s1, classifyInline s cs children = .ok s1 ∧
      walkList fuel s1 children = .ok s' := by
  rw [walkNode, walk] at h
  cases hcl : classifyInline s cs children with
  | error e => rw [hcl] at h; exact absurd h (by simp)
  | ok s1 =>
    rw [hcl] at h
    simp only [] at h
    exact ⟨s1, rfl, h⟩

/-- Witness for C7 at an unclassified inline node over a text child. -/
theorem inline_skip_departure_amended_witness :
    ∃ s1, classifyInline (initSt [] "d") [] [Node.textN "t"] = .ok s1 ∧
      walkList 2 s1 [Node.textN "t"] = .ok (initSt [] "d") :=
  inline_skip_departure_amended 2 (initSt [] "d") [] [Node.textN "t"]
    (initSt [] "d") rfl

end Indexer

namespace Indexer

/-- The desctype vocabulary exactly as the specification lists it (§3),
including `"module"` — to be compared with the source's
`CollectInfo.desctypes`. -/
def specVocabulary : List String :=
  ["module", "data", "function", "exception", "class", "attribute", "method",
   "staticmethod", "classmethod"]

/-- C1 counterexample: `"module"` belongs to the vocabulary the claim
states, yet a description node declaring `desctype = "module"` is skipped
whole by `visit_desc` (the source's `desctypes` set has no `"module"`):
the walk returns the state unchanged and registers nothing. -/
theorem desc_module_skipped_cex :
    "module" ∈ specVocabulary ∧
    walkNode 5 (initSt [] "d")
      (.descN (some "module") [.descSig ["pygame"] []]) =
      .ok (initSt [] "d") ∧
    (initSt ([] : Registry) "d").tbl = [] := by
  exact ⟨by simp [specVocabulary], rfl, rfl⟩

/-- C1 (amended): a description node is indexed if and only if its
declared desctype is in the source's recognized vocabulary `desctypes`
(data, function, exception, class, attribute, method, staticmethod,
classmethod — without module): an unrecognized desctype leaves the state
entirely unchanged (node and subtree pruned, no registry entry, nothing
added to any ancestor's frame), while a recognized one, when its walk
succeeds, registers an entry under the node's stripped refid. -/
theorem desc_vocab_indexed_iff :
    (∀ (fuel : Nat) (s : St) (dt : Option String) (cs : List Node),
       desctypes.contains (dt.getD "") = false →
       walkNode (fuel + 1) s (.descN dt cs) = .ok s) ∧
    (∀ (fuel : Nat) (s : St) (dt : Option String) (cs : List Node)
       (s' : St) (r : String),
       desctypes.contains (dt.getD "") = true →
       walkNode (fuel + 1) s (.descN dt cs) = .ok s' →
       get_refid (.descN dt cs) = .ok r →
       (lookupTbl s'.tbl (stripModule r)).isSome) := by
  constructor
  · intro fuel s dt cs h
    have hc : ¬ (desctypes.contains (dt.getD "") = true) := by
      intro hcc
      rw [h] at hcc
      exact absurd hcc (by simp)
    rw [walkNode, walk, if_neg hc]
  · intro fuel s dt cs s' r h hw hr
    rw [walkNode, walk] at hw
    simp only [h, if_true] at hw
    cases hww : walk fuel (pushFrame s) (.inr cs) with
    | error e => rw [hww] at hw; exact absurd hw (by simp)
    | ok s1 =>
      rw [hww] at hw
      simp only [] at hw
      obtain ⟨sum, sums, sigs, sigss, cds, top, rest, fn, rs, r0,
        _, _, _, _, _, hr0, hs'⟩ := departDesc_ok hw
      have hrr : r0 = r := Except.ok.inj (hr0.symm.trans hr)
      subst hrr
      rw [hs']
      show (lookupTbl (dictInsert s1.tbl (stripModule r0) _) (stripModule r0)).isSome
      rw [lookupTbl_dictInsert]
      simp

/-- A recognized description node used by the C1 witness. -/
def wDescNode : Node := .descN (some "function") [.descSig ["f"] []]

/-- The state the C1 witness walk ends in. -/
def wSt1 : St :=
  { summary_stack := [""], sig_stack := [[]], desc_stack := [[wDescNode]],
    tbl := [("f", mkEntry "f" "function" "" [] [] "f" "d")], docname := "d" }

/-- Witness for C1: a `module` desctype is skipped unchanged; a `function`
desctype ends with its key registered. -/
theorem desc_vocab_indexed_iff_witness :
    walkNode 4 (initSt [] "d")
      (.descN (some "module") [.descSig ["pygame"] []]) =
      .ok (initSt [] "d") ∧
    walkNode 5 (pushFrame (initSt [] "d")) wDescNode = .ok wSt1 ∧
    (lookupTbl wSt1.tbl (stripModule "f")).isSome := by
  refine ⟨desc_vocab_indexed_iff.1 3 (initSt [] "d") (some "module")
    [.descSig ["pygame"] []] rfl, rfl, ?_⟩
  exact desc_vocab_indexed_iff.2 4 (pushFrame (initSt [] "d"))
    (some "function") [.descSig ["f"] []] wSt1 "f" rfl rfl rfl

/-- The first accumulated description child used by the C4 witness. -/
def aliasDesc : Node := .descN (some "function") [.descSig ["pygame.key.get_focused"] []]

/-- The already-registered entry of the C4 witness's description child. -/
def aliasEntry : Entry :=
  mkEntry "pygame.key.get_focused" "function"
    "true if the display is receiving keyboard input from the system"
    ["get_focused() -> bool"] [] "pygame.key.get_focused" "d"

/-- The visitor state just before leaving the C4 witness's section. -/
def aliasSt : St :=
  { summary_stack := [""], sig_stack := [[]], desc_stack := [[aliasDesc]],
    tbl := [("pygame.key.get_focused", aliasEntry)], docname := "d" }

/-- C4: leaving a section with tree children whose first id lacks the
module prefix and whose frame accumulated at least one description child
succeeds and registers, under the section's own registry key, exactly the
already-registered entry of the first accumulated description child. -/
theorem headerless_section_alias (s : St) (names : List String) (id0 : String)
    (idr : List String) (nch : List Node) (sum : String) (sums : List String)
    (sigs : List String) (sigss : List (List String)) (d : Node)
    (ds : List Node) (descss : List (List Node)) (E : Entry)
    (hsum : s.summary_stack = sum :: sums) (hsig : s.sig_stack = sigs :: sigss)
    (hdesc : s.desc_stack = (d :: ds) :: descss)
    (hnch : nch.isEmpty = false)
    (hpre : strStartsWith id0 MODULE_ID_PREFIX = false)
    (hE : get_descinfo d s.tbl = .ok E) :
    departSection s names (id0 :: idr) nch =
      .ok { popSt s sums sigss descss with tbl := dictInsert s.tbl id0 E } ∧
    lookupTbl (dictInsert s.tbl id0 E) id0 = some E := by
  constructor
  · rw [departSection, hsum, hsig, hdesc]
    simp only [hnch, Bool.false_eq_true, if_neg, not_false_eq_true, hpre, hE]
    rw [addDescinfoEntry]
    simp only [get_refid, get_ids]
    rw [stripModule_no_marker hpre]
    rfl
  · rw [lookupTbl_dictInsert]
    simp

/-- Witness for C4 on a concrete headerless section state. -/
theorem headerless_section_alias_witness :
    departSection aliasSt ["pygame.key"] ["pygame-key"] [Node.otherN []] =
      .ok { popSt aliasSt [] [] [] with tbl := dictInsert aliasSt.tbl "pygame-key" aliasEntry } ∧
    lookupTbl (dictInsert aliasSt.tbl "pygame-key" aliasEntry) "pygame-key" =
      some aliasEntry :=
  headerless_section_alias aliasSt ["pygame.key"] "pygame-key" [] [Node.otherN []]
    "" [] [] [] aliasDesc [] [] aliasEntry rfl rfl rfl rfl rfl rfl

/-- C8: purging is total and removes exactly the entries recorded for the
given docname — on a registry with unique keys (any dict state), the
result is the docname filter, membership is characterized accordingly,
purging a docname with no entries is the identity, and purging before the
registry exists is a no-op. -/
theorem purge_semantics :
    (∀ d, prepDocumentInfo none d = none) ∧
    (∀ (tbl : Registry) (d : String), (tbl.map Prod.fst).Nodup →
       prepDocumentInfo (some tbl) d =
         some (tbl.filter (fun kv => !(kv.2.docname == d))) ∧
       (∀ kv : String × Entry,
          kv ∈ tbl.filter (fun kv => !(kv.2.docname == d)) ↔
            (kv ∈ tbl ∧ kv.2.docname ≠ d)) ∧
       ((∀ kv ∈ tbl, kv.2.docname ≠ d) →
          prepDocumentInfo (some tbl) d = some tbl)) := by
  refine ⟨fun d => rfl, fun tbl d hnd => ⟨purge_eq_filter d hnd, ?_, ?_⟩⟩
  · intro kv
    simp [List.mem_filter]
  · intro hall
    rw [purge_eq_filter d hnd]
    congr 1
    apply List.filter_eq_self.mpr
    intro kv hkv
    simp [hall kv hkv]

/-- A doc1 entry for the C8 witness. -/
def pEntryA : Entry := mkEntry "a" "function" "" [] [] "a" "doc1"

/-- A doc2 entry for the C8 witness. -/
def pEntryB : Entry := mkEntry "b" "function" "" [] [] "b" "doc2"

/-- The two-document registry of the C8 witness. -/
def purgeTbl : Registry := [("a", pEntryA), ("b", pEntryB)]

/-- Witness for C8: purging doc1 keeps exactly the doc2 entry; purging an
absent docname is the identity; purging with no registry is a no-op. -/
theorem purge_semantics_witness :
    prepDocumentInfo none "doc1" = none ∧
    prepDocumentInfo (some purgeTbl) "doc1" = some [("b", pEntryB)] ∧
    prepDocumentInfo (some purgeTbl) "doc3" = some purgeTbl := by
  refine ⟨purge_semantics.1 "doc1", ?_, ?_⟩
  · have h := (purge_semantics.2 purgeTbl "doc1" (by decide)).1
    rw [h]
    rfl
  · exact (purge_semantics.2 purgeTbl "doc3" (by decide)).2.2 (by decide)

end Indexer

namespace Indexer

/-- An inline node tagged both `summaryline` and `signature`. -/
def dualTagged : Node := .inlineN ["summaryline", "signature"] [.textN "x"]

/-- C6 counterexample: a `signature`-tagged inline node that is also
tagged `summaryline` is classified as a summary only (the `elif`), so its
text is NOT appended to the frame's signature list — the signature frame
stays empty. -/
theorem dual_tagged_inline_cex :
    "signature" ∈ ["summaryline", "signature"] ∧
    walkNode 4 (pushFrame (initSt [] "d")) dualTagged =
      .ok { summary_stack := ["x"], sig_stack := [[]], desc_stack := [[]], tbl := [], docname := "d" } := by
  constructor
  · simp
  · simp [walkNode, walk, dualTagged, pushFrame, initSt, classifyInline,
      addSummary, addSig, astext, astextA]

/-- C6 (amended): within one frame, the recorded summary is the text of
the last `summaryline`-tagged inline node encountered (last write wins;
the previous value is kept when there is none), and the signature list
receives the text of every `signature`-tagged inline node not also tagged
`summaryline` (which takes priority), appended in encounter order. -/
theorem frame_summary_sig_amended (fuel : Nat) (ns : List Node) (s s' : St)
    (a : String) (as : List String) (g : List String) (gs : List (List String))
    (hok : inlineOnlyA (.inr ns) = true)
    (hsum : s.summary_stack = a :: as) (hsig : s.sig_stack = g :: gs)
    (h : walkList fuel s ns = .ok s') :
    s' = { s with summary_stack := lastD (sumTextsA (.inr ns)) a :: as,
                  sig_stack := (g ++ sigTextsA (.inr ns)) :: gs } :=
  walk_inline fuel (.inr ns) s s' hok a as g gs hsum hsig h

/-- The C6 witness frame contents: two summarylines and one signature. -/
def wns : List Node :=
  [.inlineN ["summaryline"] [.textN "one"],
   .inlineN ["signature"] [.textN "s1"],
   .inlineN ["summaryline"] [.textN "two"]]

/-- The state the C6 witness walk ends in. -/
def wStC6 : St :=
  { summary_stack := ["two"], sig_stack := [["s1"]], desc_stack := [[]],
    tbl := [], docname := "d" }

/-- Witness for C6: the frame records the LAST summaryline text and the
signature text, in order. -/
theorem frame_summary_sig_amended_witness :
    inlineOnlyA (.inr wns) = true ∧
    walkList 9 (pushFrame (initSt [] "d")) wns = .ok wStC6 ∧
    wStC6 = { pushFrame (initSt [] "d") with summary_stack := lastD (sumTextsA (.inr wns)) "" :: [], sig_stack := ([] ++ sigTextsA (.inr wns)) :: [] } := by
  have h1 : inlineOnlyA (.inr wns) = true := by
    simp only [wns, inlineOnlyA]
    decide
  have h2 : walkList 9 (pushFrame (initSt [] "d")) wns = .ok wStC6 := by
    simp [walkList, walk, wns, wStC6, pushFrame, initSt, classifyInline,
      addSummary, addSig, astext, astextA]
  exact ⟨h1, h2, frame_summary_sig_amended 9 wns (pushFrame (initSt [] "d"))
    wStC6 "" [] [] [] h1 rfl rfl h2⟩

/-- The description entry the C9 counterexample registers (under the
stripped key `weird`, while its raw refid keeps the prefix). -/
def cexDescEntry : Entry :=
  mkEntry "module-weird" "function" "" [] [] "module-weird" "d"

/-- The section entry the C9 counterexample registers: its children list
holds the UNstripped child refid. -/
def cexSectionEntry : Entry :=
  mkEntry "pygame.key" "module" "" [] ["module-weird"] "module-pygame.key" "d"

/-- The registry state after walking the C9 counterexample document. -/
def cexTbl : Registry :=
  [("weird", cexDescEntry), ("pygame.key", cexSectionEntry)]

/-- The C9 counterexample document: a module section containing a
description whose signature id itself carries the `module-` prefix. -/
def modulePrefixDoc : List Node :=
  [.sectionN ["pygame.key"] ["module-pygame.key"]
     [.descN (some "function") [.descSig ["module-weird"] []]]]

/-- C9 counterexample: the walk completes without abort, yet the section
entry's children list names `module-weird`, which is NOT a registry key
(the entry was keyed under the stripped `weird`): the closure invariant
fails after processing, and flattening the section hits the fatal
`KeyError`. -/
theorem children_closure_cex :
    collectDocumentInfo 10 [] "d" modulePrefixDoc =
      .ok { summary_stack := [], sig_stack := [], desc_stack := [], tbl := cexTbl, docname := "d" } ∧
    lookupTbl cexTbl "pygame.key" = some cexSectionEntry ∧
    "module-weird" ∈ cexSectionEntry.children ∧
    lookupTbl cexTbl "module-weird" = none ∧
    ¬ closedTbl cexTbl ∧
    tour_descinfo 10 cexTbl
      (.sectionN ["pygame.key"] ["module-pygame.key"]
        [.descN (some "function") [.descSig ["module-weird"] []]]) =
      .error .keyError := by
  refine ⟨rfl, rfl, by simp [cexSectionEntry, mkEntry], rfl, ?_, rfl⟩
  intro hc
  have hv := hc "pygame.key" cexSectionEntry rfl "module-weird"
    (by simp [cexSectionEntry, mkEntry])
  simp [show lookupTbl cexTbl "module-weird" = none from rfl] at hv

/-- C9 (amended): provided no description node's resolvable refid carries
the module prefix, a completed document walk over a closed registry
leaves the registry closed (every key in any entry's children list is a
registry key); a key that is nevertheless missing at traversal time
raises the fatal `KeyError` of `tour_descinfo_refid`. -/
theorem children_closure_amended :
    (∀ (fuel : Nat) (ns : List Node) (tbl : Registry) (docname : String)
       (s' : St), descIdsOKA (.inr ns) = true → closedTbl tbl →
       collectDocumentInfo fuel tbl docname ns = .ok s' → closedTbl s'.tbl) ∧
    (∀ (fuel : Nat) (tbl : Registry) (k : String), lookupTbl tbl k = none →
       tour_descinfo_refid (fuel + 1) tbl k = .error .keyError) := by
  constructor
  · intro fuel ns tbl docname s' hok hc h
    have hinv : WInv (initSt tbl docname) := by
      refine ⟨hc, ?_⟩
      intro fr hfr n hn
      simp [initSt] at hfr
    exact (walk_winv fuel (.inr ns) (initSt tbl docname) s' hok hinv h).1
  · intro fuel tbl k hk
    rw [tour_descinfo_refid, tourAux, hk]

/-- The C9 witness document: the same shape as the counterexample but with
a prefix-free description id. -/
def goodDoc : List Node :=
  [.sectionN ["pygame.key"] ["module-pygame.key"]
     [.descN (some "function") [.descSig ["pygame.key.get_focused"] []]]]

/-- The description entry registered by the C9 witness walk. -/
def goodEntryD : Entry :=
  mkEntry "pygame.key.get_focused" "function" "" [] [] "pygame.key.get_focused" "d"

/-- The section entry registered by the C9 witness walk. -/
def goodEntryS : Entry :=
  mkEntry "pygame.key" "module" "" [] ["pygame.key.get_focused"]
    "module-pygame.key" "d"

/-- The state the C9 witness walk ends in. -/
def goodSt : St :=
  { summary_stack := [], sig_stack := [], desc_stack := [],
    tbl := [("pygame.key.get_focused", goodEntryD), ("pygame.key", goodEntryS)],
    docname := "d" }

/-- Witness for C9: a prefix-free document walked from the empty registry
ends closed; a missing key is a `KeyError`. -/
theorem children_closure_amended_witness :
    descIdsOKA (.inr goodDoc) = true ∧
    collectDocumentInfo 10 [] "d" goodDoc = .ok goodSt ∧
    closedTbl goodSt.tbl ∧
    tour_descinfo_refid 3 ([] : Registry) "missing" = .error .keyError := by
  have h1 : descIdsOKA (.inr goodDoc) = true := by
    simp only [goodDoc, descIdsOKA]
    decide
  have h0 : closedTbl ([] : Registry) := by
    intro k e hk
    simp [lookupTbl] at hk
  have h2 : collectDocumentInfo 10 [] "d" goodDoc = .ok goodSt := rfl
  exact ⟨h1, h2, children_closure_amended.1 10 goodDoc [] "d" goodSt h1 h0 h2,
    children_closure_amended.2 2 [] "missing" rfl⟩

/-- The C10 witness document: one named section over a structural child. -/
def balDoc : List Node := [.sectionN ["pygame.mixer"] ["pygame-mixer"] [.otherN []]]

/-- C10: (1) a successful walk leaves all three accumulator stacks at
their entry depths (every pushed frame is popped exactly once); (2) an
unnamed section is skipped with its subtree, leaving the state entirely
unchanged; (3) so is a description with an unrecognized desctype — so
data collected inside a skipped node's frame never reaches an ancestor's
frame. -/
theorem stack_balance :
    (∀ (fuel : Nat) (ns : List Node) (s s' : St), walkList fuel s ns = .ok s' →
       s'.summary_stack.length = s.summary_stack.length ∧
       s'.sig_stack.length = s.sig_stack.length ∧
       s'.desc_stack.length = s.desc_stack.length) ∧
    (∀ (fuel : Nat) (s : St) (ids : List String) (cs : List Node),
       walkNode (fuel + 1) s (.sectionN [] ids cs) = .ok s) ∧
    (∀ (fuel : Nat) (s : St) (dt : Option String) (cs : List Node),
       desctypes.contains (dt.getD "") = false →
       walkNode (fuel + 1) s (.descN dt cs) = .ok s) := by
  refine ⟨fun fuel ns s s' h => walk_lens fuel (.inr ns) s s' h, ?_, ?_⟩
  · intro fuel s ids cs
    rfl
  · intro fuel s dt cs h
    have hc : ¬ (desctypes.contains (dt.getD "") = true) := by
      intro hcc
      rw [h] at hcc
      exact absurd hcc (by simp)
    rw [walkNode, walk, if_neg hc]

/-- Witness for C10: a full section walk restores the empty stacks; the
two skip rules leave a concrete state untouched. -/
theorem stack_balance_witness :
    ((initSt [] "d").summary_stack.length =
       (initSt [] "d").summary_stack.length ∧
     (initSt [] "d").sig_stack.length = (initSt [] "d").sig_stack.length ∧
     (initSt [] "d").desc_stack.length = (initSt [] "d").desc_stack.length) ∧
    walkNode 3 (initSt [] "d") (.sectionN [] ["x"] []) = .ok (initSt [] "d") ∧
    walkNode 3 (initSt [] "d") (.descN (some "weird") []) = .ok (initSt [] "d") := by
  refine ⟨stack_balance.1 9 balDoc (initSt [] "d") (initSt [] "d") rfl,
    stack_balance.2.1 2 (initSt [] "d") ["x"] [],
    stack_balance.2.2 2 (initSt [] "d") (some "weird") [] rfl⟩

end Indexer
